import Mathlib

/-
Verification of the streaming neural denoising pipeline of
Source/DSP/OnnxDenoiser.{h,cpp} (class OnnxDenoiser).

Samples are modelled as rationals, C++ int values as Int.  The external
collaborators (JUCE resamplers, the ONNX runtime session, the file system)
are opaque artifacts consumed through a capability contract; they enter the
embedding as an explicit environment of functions.
-/

set_option maxHeartbeats 1000000

/-- Execution provider identifiers (enum class OnnxDenoiser::Provider). -/
inductive Provider where
  | autoSelect
  | cpu
  | dml
  | qnn
  | cuda
  | rocm
  | coreml
deriving DecidableEq

/-- OnnxDenoiser::providerToString (OnnxDenoiser.cpp, switch over the enum;
the fall-through default returns "Auto"). -/
def providerToString : Provider → String
  | .autoSelect => "Auto"
  | .cpu => "CPU"
  | .dml => "DML"
  | .qnn => "QNN"
  | .cuda => "CUDA"
  | .rocm => "ROCM"
  | .coreml => "CoreML"

/-- juce::String::toLowerCase, modelled on the character list. -/
def toLowerCase (s : String) : String :=
  String.mk (s.toList.map Char.toLower)

/-- juce::String::trim: leading and trailing whitespace removed, modelled
on the character list. -/
def trimmed (s : String) : String :=
  String.mk (((s.toList.dropWhile Char.isWhitespace).reverse.dropWhile
    Char.isWhitespace).reverse)

/-- OnnxDenoiser::providerFromString: the name is trimmed and lower-cased,
then compared against the recognised spellings; anything else maps to
autoSelect. -/
def providerFromString (name : String) : Provider :=
  let normalized := toLowerCase (trimmed name)
  if normalized = "cpu" then .cpu
  else if normalized = "dml" ∨ normalized = "directml" then .dml
  else if normalized = "qnn" ∨ normalized = "npu" then .qnn
  else if normalized = "cuda" then .cuda
  else if normalized = "rocm" then .rocm
  else if normalized = "coreml" then .coreml
  else .autoSelect

/-- OnnxDenoiser::getProviderFallbackOrder.  The member reads
preferredProvider and allowFallback; here they are explicit arguments. -/
def getProviderFallbackOrder (preferredProvider : Provider) (allowFallback : Bool) :
    List Provider :=
  if allowFallback = false ∧ preferredProvider ≠ Provider.autoSelect then
    [preferredProvider]
  else if preferredProvider = Provider.autoSelect then
    [.qnn, .dml, .cuda, .rocm, .coreml, .cpu]
  else
    let appendUnique : List Provider → Provider → List Provider :=
      fun order p => if p ∈ order then order else order ++ [p]
    let order := appendUnique [] preferredProvider
    if allowFallback then
      appendUnique (appendUnique (appendUnique (appendUnique (appendUnique
        (appendUnique order .qnn) .dml) .cuda) .rocm) .coreml) .cpu
    else
      order

/-- OnnxDenoiser::RingBuffer (OnnxDenoiser.h).  All counters are C++ int,
modelled as Int; the float store is a list of rationals. -/
structure RingBuffer where
  buffer : List ℚ
  capacity : Int
  readIndex : Int
  writeIndex : Int
  availableSamples : Int
deriving DecidableEq

/-- Default-constructed RingBuffer: empty vector, all counters zero. -/
def initRingBuffer : RingBuffer :=
  { buffer := [], capacity := 0, readIndex := 0, writeIndex := 0, availableSamples := 0 }

/-- RingBuffer::available(). -/
def RingBuffer.available (b : RingBuffer) : Int :=
  b.availableSamples

/-- RingBuffer::resize: capacity = jmax(newCapacity, 1), store reassigned to
zeros, indices and count reset. -/
def RingBuffer.resize (_b : RingBuffer) (newCapacity : Int) : RingBuffer :=
  let cap := max newCapacity 1
  { buffer := List.replicate cap.toNat 0, capacity := cap,
    readIndex := 0, writeIndex := 0, availableSamples := 0 }

/-- RingBuffer::clear: indices and count reset, store filled with zeros;
capacity and the old read index etc. of the struct are otherwise kept. -/
def RingBuffer.clear (b : RingBuffer) : RingBuffer :=
  { buffer := List.replicate b.buffer.length 0, capacity := b.capacity,
    readIndex := 0, writeIndex := 0, availableSamples := 0 }

/-- Storage index for position k of a circular store of the given capacity. -/
def wrapIdx (cap k : Int) : Nat :=
  (k % cap).toNat

/-- Sequential circular store writes: element i of data lands at storage
index (w + i) % cap.  This flattens the chunked memcpy loop of
RingBuffer::push, which copies the same elements to the same indices in at
most two contiguous runs. -/
def writeCircular (buf : List ℚ) (cap w : Int) (data : List ℚ) : List ℚ :=
  match data with
  | [] => buf
  | x :: xs => writeCircular (buf.set (wrapIdx cap w) x) cap (w + 1) xs

/-- RingBuffer::push(data, count): no-op for count <= 0; count is clamped to
capacity (so only the first capacity elements of data are copied); the
clamped count of samples is written at writeIndex onward, wrapping; the
available count saturates at capacity, and when the buffer is full the read
index is snapped to the write index.  writeIndex advances only when the
copy loop ran, i.e. when the clamped count is positive. -/
def RingBuffer.push (b : RingBuffer) (data : List ℚ) (count : Int) : RingBuffer :=
  if count ≤ 0 then b
  else
    let c := if count > b.capacity then b.capacity else count
    let written := writeCircular b.buffer b.capacity b.writeIndex (data.take c.toNat)
    let w := if 0 < c then (b.writeIndex + c) % b.capacity else b.writeIndex
    let avail := min b.capacity (b.availableSamples + c)
    { buffer := written, capacity := b.capacity, writeIndex := w,
      readIndex := if avail = b.capacity then w else b.readIndex,
      availableSamples := avail }

/-- RingBuffer::pop(dest, count, fillWithZeros): reads
toRead = min(count, available) samples from readIndex onward into dest,
advances readIndex (only when the copy loop ran), decrements the available
count, and zero-fills the remainder of dest when requested.  The result is
(returned toRead, contents of dest[0, count) that were written, new state). -/
def RingBuffer.pop (b : RingBuffer) (count : Int) (fillWithZeros : Bool) :
    Int × List ℚ × RingBuffer :=
  if count ≤ 0 then (0, [], b)
  else
    let toRead := min count b.availableSamples
    let readPart := (List.range toRead.toNat).map fun (j : Nat) =>
      b.buffer.getD (wrapIdx b.capacity (b.readIndex + (j : Int))) 0
    let r := if 0 < toRead then (b.readIndex + toRead) % b.capacity else b.readIndex
    let dest := if fillWithZeros ∧ toRead < count
                then readPart ++ List.replicate (count - toRead).toNat 0
                else readPart
    (toRead, dest,
      { b with readIndex := r, availableSamples := b.availableSamples - toRead })

/-- The stored samples in arrival order (oldest first): the abstract queue a
RingBuffer state represents. -/
def RingBuffer.contents (b : RingBuffer) : List ℚ :=
  (List.range b.availableSamples.toNat).map fun (j : Nat) =>
    b.buffer.getD (wrapIdx b.capacity (b.readIndex + (j : Int))) 0

/-- Well-formedness of a RingBuffer state, as established by resize and
preserved by clear, push and pop: positive capacity matching the store
length, indices inside the store, available count within bounds, and the
write index sitting exactly availableSamples past the read index. -/
def RingBuffer.WF (b : RingBuffer) : Prop :=
  1 ≤ b.capacity ∧
  (b.buffer.length : Int) = b.capacity ∧
  0 ≤ b.readIndex ∧ b.readIndex < b.capacity ∧
  0 ≤ b.writeIndex ∧ b.writeIndex < b.capacity ∧
  0 ≤ b.availableSamples ∧ b.availableSamples ≤ b.capacity ∧
  b.writeIndex = (b.readIndex + b.availableSamples) % b.capacity

instance (b : RingBuffer) : Decidable b.WF := by
  unfold RingBuffer.WF
  infer_instance

/-- The last n elements of a list. -/
def takeLastL (l : List ℚ) (n : Nat) : List ℚ :=
  l.drop (l.length - n)

/-- One RingBuffer operation, for stating invariants over arbitrary
operation sequences. -/
inductive RBOp where
  | resize (newCapacity : Int)
  | clear
  | push (data : List ℚ) (count : Int)
  | pop (count : Int) (fill : Bool)

/-- Apply one operation to a RingBuffer state (pop results are discarded). -/
def RBOp.apply (b : RingBuffer) : RBOp → RingBuffer
  | .resize n => b.resize n
  | .clear => b.clear
  | .push data count => b.push data count
  | .pop count fill => (b.pop count fill).2.2

/-- Fixed model sample rate (static constexpr double modelSampleRate). -/
def modelSampleRate : ℚ := 48000

/-- Fixed model frame length (static constexpr int modelFrameSize). -/
def modelFrameSize : Int := 480

/-- OnnxDenoiser::ChannelState.  The two juce::LagrangeInterpolator members
are external stateful collaborators; their internal state is opaque and is
modelled as a list of rationals (reset clears it). -/
structure ChannelState where
  resamplerIn : List ℚ
  resamplerOut : List ℚ
  inputFifo : RingBuffer
  outputFifo : RingBuffer
  tempIn : List ℚ
  tempOut : List ℚ
  frameIn : List ℚ
  frameOut : List ℚ
deriving DecidableEq

/-- Default-constructed ChannelState (fresh std::vector members and
default-constructed interpolators and ring buffers). -/
def initChannelState : ChannelState :=
  { resamplerIn := [], resamplerOut := [], inputFifo := initRingBuffer,
    outputFifo := initRingBuffer, tempIn := [], tempOut := [],
    frameIn := [], frameOut := [] }

/-- OnnxDenoiser state.  The Ort::Session pointer is modelled as
Option Unit (isReady() is session != nullptr); rIn and rOut embed the
resampleInRatio and resampleOutRatio double members. -/
structure DenoiserState where
  hostSampleRate : ℚ := 44100
  numChannels : Int := 2
  maxBlock : Int := 0
  enabled : Bool := false
  rIn : ℚ := 1
  rOut : ℚ := 1
  modelPath : String := ""
  preferredProvider : Provider := Provider.autoSelect
  activeProvider : Provider := Provider.cpu
  allowFallback : Bool := true
  dmlDeviceId : Int := 0
  qnnBackendPath : String := ""
  channels : List ChannelState := []
  session : Option Unit := none
deriving DecidableEq

/-- Default-constructed OnnxDenoiser (field initialisers of OnnxDenoiser.h). -/
def initDenoiser : DenoiserState := {}

/-- OnnxDenoiser::isReady(): session != nullptr. -/
def isReady (d : DenoiserState) : Bool :=
  d.session.isSome

/-- OnnxDenoiser::setEnabled. -/
def setEnabled (d : DenoiserState) (shouldEnable : Bool) : DenoiserState :=
  { d with enabled := shouldEnable }

/-- OnnxDenoiser::setModelPath: records the path and destroys the session. -/
def setModelPath (d : DenoiserState) (file : String) : DenoiserState :=
  { d with modelPath := file, session := none }

/-- OnnxDenoiser::clearModelPath: resets the path and destroys the session. -/
def clearModelPath (d : DenoiserState) : DenoiserState :=
  { d with modelPath := "", session := none }

/-- OnnxDenoiser::setPreferredProvider: records the preference and destroys
the session. -/
def setPreferredProvider (d : DenoiserState) (provider : Provider) : DenoiserState :=
  { d with preferredProvider := provider, session := none }

/-- OnnxDenoiser::setAllowFallback (OnnxDenoiser.h): only assigns the flag;
the session member is not touched. -/
def setAllowFallback (d : DenoiserState) (shouldAllow : Bool) : DenoiserState :=
  { d with allowFallback := shouldAllow }

/-- External collaborators of the denoiser, supplied as capabilities:
the file system, the model-file search result, the compile-time and
platform availability of providers, the outcome of constructing an
Ort::Session for a file and provider, a JUCE Lagrange resampler
(state, ratio, input, outputs-to-produce) returning (produced samples,
int return value, new state), and the session inference call, none for a
throw and the raw output tensor data otherwise. -/
structure Env where
  fileExists : String → Bool
  modelCandidates : List String
  isProviderUsable : Provider → Bool
  tryCreate : String → Provider → Bool
  resample : List ℚ → ℚ → List ℚ → Nat → List ℚ × Int × List ℚ
  run : List ℚ → Option (List ℚ)

/-- OnnxDenoiser::tryCreateSessionForProvider: fails for a missing file,
otherwise the environment decides whether the session construction for this
provider succeeds; on success the session is set and the provider becomes
active.  On failure session is reset, which in every call site is already
its state, so failure is modelled as none. -/
def tryCreateSessionForProvider (env : Env) (d : DenoiserState) (file : String)
    (provider : Provider) : Option DenoiserState :=
  if env.fileExists file = false then none
  else if env.tryCreate file provider then
    some { d with session := some (), activeProvider := provider }
  else none

/-- The provider loop shared by both halves of loadDefaultModelIfNeeded:
skip unusable providers, return the first state whose session construction
succeeds. -/
def tryProvidersFor (env : Env) (d : DenoiserState) (file : String) :
    List Provider → Option DenoiserState
  | [] => none
  | p :: rest =>
    if env.isProviderUsable p = false then tryProvidersFor env d file rest
    else match tryCreateSessionForProvider env d file p with
      | some d1 => some d1
      | none => tryProvidersFor env d file rest

/-- The candidate loop of loadDefaultModelIfNeeded: skip missing files; on
the first successful session the winning candidate becomes the model path. -/
def tryCandidates (env : Env) (d : DenoiserState) (providers : List Provider) :
    List String → Option DenoiserState
  | [] => none
  | c :: rest =>
    if env.fileExists c = false then tryCandidates env d providers rest
    else match tryProvidersFor env d c providers with
      | some d1 => some { d1 with modelPath := c }
      | none => tryCandidates env d providers rest

/-- OnnxDenoiser::loadDefaultModelIfNeeded: true immediately when a session
exists; otherwise try the explicit model path over the fallback order, then
the discovered candidates (getModelCandidates inspects the executable
directory and environment, so the candidate list is an environment input).
When every attempt fails the state is unchanged and false is returned. -/
def loadDefaultModelIfNeeded (env : Env) (d : DenoiserState) : Bool × DenoiserState :=
  if d.session.isSome then (true, d)
  else
    let providers := getProviderFallbackOrder d.preferredProvider d.allowFallback
    let fromPath := if env.fileExists d.modelPath
                    then tryProvidersFor env d d.modelPath providers
                    else none
    match fromPath with
    | some d1 => (true, d1)
    | none =>
      match tryCandidates env d providers env.modelCandidates with
      | some d1 => (true, d1)
      | none => (false, d)

/-- OnnxDenoiser::runModel: false when no session is loaded; otherwise the
session call either throws or returns no output (none) or yields output
data, of which min(frameSize, outputCount) samples are copied and the rest
of the frame zero-filled.  Here frameSize is the modelFrameSize the one
caller passes. -/
def runModel (sessionLoaded : Bool) (run : List ℚ → Option (List ℚ))
    (input : List ℚ) : Option (List ℚ) :=
  if sessionLoaded = false then none
  else match run input with
    | none => none
    | some out => some (out.take modelFrameSize.toNat ++
        List.replicate (modelFrameSize.toNat - out.length) 0)

/-- One unrolling bound for the frame-draining while loop of
OnnxDenoiser::processChannel.  Each iteration pops one full model frame,
runs inference, and pushes the model output frame on success or the
original input frame unchanged on failure.  The C++ while loop removes
modelFrameSize samples from the input fifo per iteration, so any fuel of at
least available()/modelFrameSize iterations computes the loop exactly;
drainFrames supplies available().toNat. -/
def drainLoop (rm : List ℚ → Option (List ℚ)) :
    Nat → RingBuffer → RingBuffer → List ℚ → List ℚ →
    RingBuffer × RingBuffer × List ℚ × List ℚ
  | 0, inFifo, outFifo, fIn, fOut => (inFifo, outFifo, fIn, fOut)
  | fuel + 1, inFifo, outFifo, fIn, fOut =>
    if modelFrameSize ≤ inFifo.availableSamples then
      let p := inFifo.pop modelFrameSize false
      match rm p.2.1 with
      | some out => drainLoop rm fuel p.2.2 (outFifo.push out modelFrameSize) p.2.1 out
      | none => drainLoop rm fuel p.2.2 (outFifo.push p.2.1 modelFrameSize) p.2.1 fOut
    else (inFifo, outFifo, fIn, fOut)

/-- The while loop of OnnxDenoiser::processChannel that drains full model
frames from the input fifo into the output fifo. -/
def drainFrames (rm : List ℚ → Option (List ℚ)) (inFifo outFifo : RingBuffer)
    (fIn fOut : List ℚ) : RingBuffer × RingBuffer × List ℚ × List ℚ :=
  drainLoop rm inFifo.availableSamples.toNat inFifo outFifo fIn fOut

/-- Grow a std::vector of floats to at least n elements (resize appends
value-initialised zeros and keeps the prefix). -/
def growTo (v : List ℚ) (n : Nat) : List ℚ :=
  if (v.length : Int) < (n : Int) then v ++ List.replicate (n - v.length) 0 else v

/-- An external resampler call writes exactly n output samples into the
destination array: its produced block, truncated or zero-extended to n. -/
def writtenBlock (produced : List ℚ) (n : Nat) : List ℚ :=
  produced.take n ++ List.replicate (n - produced.length) 0

/-- OnnxDenoiser::processChannel, as invoked by its only caller
processBlock, which passes the same channelData pointer for both input and
output.  Stages: grow tempIn to targetSamples = ceil(numSamples / rIn) and
resample the input into it, push the returned sample count into the input
fifo, drain full model frames through the model, grow tempOut to
requiredModelSamples = ceil(rOut * numSamples), pop that many samples
(zero-padded) from the output fifo, resample them back into the output
array, and blend.  Because output aliases input, by the time the mix loop
reads input[i] the resampler write has already replaced it with the wet
sample, so both mix operands are the wet value. -/
def processChannel (env : Env) (sessionLoaded : Bool) (rIn rOut : ℚ)
    (st : ChannelState) (channelData : List ℚ) (mix : ℚ) : List ℚ × ChannelState :=
  let numSamples : Int := channelData.length
  let targetSamples : Int := ⌈(numSamples : ℚ) / rIn⌉
  let tempIn0 := growTo st.tempIn targetSamples.toNat
  let r1 := env.resample st.resamplerIn rIn channelData targetSamples.toNat
  let producedSamples : Int := r1.2.1
  let tempIn1 := writtenBlock r1.1 targetSamples.toNat ++ tempIn0.drop targetSamples.toNat
  let inFifo1 := st.inputFifo.push tempIn1 producedSamples
  let dr := drainFrames (runModel sessionLoaded env.run) inFifo1 st.outputFifo
              st.frameIn st.frameOut
  let requiredModelSamples : Int := ⌈rOut * (numSamples : ℚ)⌉
  let tempOut0 := growTo st.tempOut requiredModelSamples.toNat
  let pp := dr.2.1.pop requiredModelSamples true
  let tempOut1 := pp.2.1 ++ tempOut0.drop requiredModelSamples.toNat
  let r2 := env.resample st.resamplerOut rOut tempOut1 numSamples.toNat
  let wet := writtenBlock r2.1 numSamples.toNat
  let out := if mix < 1
             then List.zipWith (fun inV outV => inV * (1 - mix) + outV * mix) wet wet
             else wet
  (out,
    { st with
      resamplerIn := r1.2.2
      resamplerOut := r2.2.2
      inputFifo := dr.1
      outputFifo := pp.2.2
      tempIn := tempIn1
      tempOut := tempOut1
      frameIn := dr.2.2.1
      frameOut := dr.2.2.2 })

/-- OnnxDenoiser::processBlock: bail out while disabled, for mix <= 0, or
when no model loads; otherwise clamp mix to [0, 1] and run processChannel
on min(buffer channels, configured channels) channels, each channel array
processed in place. -/
def processBlock (env : Env) (d : DenoiserState) (buffer : List (List ℚ))
    (mix : ℚ) : List (List ℚ) × DenoiserState :=
  if d.enabled = false then (buffer, d)
  else if mix ≤ 0 then (buffer, d)
  else
    let load := loadDefaultModelIfNeeded env d
    if load.1 = false then (buffer, load.2)
    else
      let d1 := load.2
      let m := if mix < 0 then 0 else if 1 < mix then 1 else mix
      let processed := List.zipWith
        (fun data st => processChannel env d1.session.isSome d1.rIn d1.rOut st data m)
        buffer d1.channels
      (processed.map Prod.fst ++ buffer.drop d1.channels.length,
       { d1 with channels := processed.map Prod.snd ++ d1.channels.drop buffer.length })

/-- Per-channel configuration performed by the loop in
OnnxDenoiser::prepare: interpolators reset, fifos resized to 32 model
frames, scratch vectors cleared, frame vectors resized to the model frame
length. -/
def prepareChannel (c : ChannelState) : ChannelState :=
  let fifoCapacity := modelFrameSize * 32
  { resamplerIn := [], resamplerOut := [],
    inputFifo := c.inputFifo.resize fifoCapacity,
    outputFifo := c.outputFifo.resize fifoCapacity,
    tempIn := [], tempOut := [],
    frameIn := growTo (c.frameIn.take modelFrameSize.toNat) modelFrameSize.toNat,
    frameOut := growTo (c.frameOut.take modelFrameSize.toNat) modelFrameSize.toNat }

/-- OnnxDenoiser::prepare: records the host configuration and the two
resample ratios, resizes the channel vector (std::vector::resize keeps the
prefix and default-constructs new entries), configures every channel, and
attempts a model load. -/
def prepare (env : Env) (d : DenoiserState) (newSampleRate : ℚ)
    (newNumChannels : Int) (maxBlockSize : Int) : DenoiserState :=
  let resized := d.channels.take newNumChannels.toNat ++
    List.replicate (newNumChannels.toNat - d.channels.length) initChannelState
  let d1 := { d with
              hostSampleRate := newSampleRate
              numChannels := newNumChannels
              maxBlock := maxBlockSize
              rIn := newSampleRate / modelSampleRate
              rOut := modelSampleRate / newSampleRate
              channels := resized.map prepareChannel }
  (loadDefaultModelIfNeeded env d1).2

/-- OnnxDenoiser::reset: per channel, reset the interpolators and clear
both fifos. -/
def resetDenoiser (d : DenoiserState) : DenoiserState :=
  { d with channels := d.channels.map fun c =>
      { c with
        resamplerIn := []
        resamplerOut := []
        inputFifo := c.inputFifo.clear
        outputFifo := c.outputFifo.clear } }

/-- Concrete environment in which every file exists and every session
construction succeeds; the resampler writes silence and reports the input
length consumed; inference always throws. -/
def envAll : Env :=
  { fileExists := fun _ => true
    modelCandidates := []
    isProviderUsable := fun _ => true
    tryCreate := fun _ _ => true
    resample := fun st _ input n => (List.replicate n 0, (input.length : Int), st)
    run := fun _ => none }

/-- Concrete environment in which no file exists and every session
construction fails. -/
def envFail : Env :=
  { fileExists := fun _ => false
    modelCandidates := []
    isProviderUsable := fun _ => true
    tryCreate := fun _ _ => false
    resample := fun st _ input n => (List.replicate n 0, (input.length : Int), st)
    run := fun _ => none }

/-- An enabled denoiser with no session. -/
def enabledDenoiser : DenoiserState :=
  { initDenoiser with enabled := true }

/-- An enabled denoiser prepared for one channel at 48 kHz with a
successfully loaded session (in envAll every load succeeds). -/
def c8prepared : DenoiserState :=
  prepare envAll enabledDenoiser 48000 1 512

/-- A denoiser holding a live session, with the default fallback policy. -/
def c5state : DenoiserState :=
  { initDenoiser with session := some () }

/-- Blending a value with itself is the identity: the algebraic content of
the aliased mix loop. -/
lemma zipWith_mix_self (m : ℚ) (l : List ℚ) :
    List.zipWith (fun inV outV => inV * (1 - m) + outV * m) l l = l := by
  induction l with
  | nil => rfl
  | cons x xs ih =>
    simp only [List.zipWith_cons_cons, ih, List.cons.injEq, and_true]
    ring

/-- With the tryCreate capability failing everywhere, the provider loop
never produces a session. -/
lemma tryProvidersFor_none (env : Env) (d : DenoiserState) (file : String)
    (h : ∀ f p, env.tryCreate f p = false) :
    ∀ ps, tryProvidersFor env d file ps = none := by
  intro ps
  induction ps with
  | nil => rfl
  | cons p rest ih =>
    unfold tryProvidersFor
    by_cases hu : env.isProviderUsable p = false
    · simp [hu, ih]
    · simp [hu, tryCreateSessionForProvider, h, ih]

/-- With the tryCreate capability failing everywhere, the candidate loop
never produces a session. -/
lemma tryCandidates_none (env : Env) (d : DenoiserState) (providers : List Provider)
    (h : ∀ f p, env.tryCreate f p = false) :
    ∀ cs, tryCandidates env d providers cs = none := by
  intro cs
  induction cs with
  | nil => rfl
  | cons c rest ih =>
    unfold tryCandidates
    by_cases hf : env.fileExists c = false
    · simp [hf, ih]
    · simp [hf, tryProvidersFor_none env d c h, ih]

/-- When no session exists and every session construction fails,
loadDefaultModelIfNeeded reports failure and leaves the state unchanged. -/
lemma loadDefaultModelIfNeeded_fails (env : Env) (d : DenoiserState)
    (hs : d.session = none) (h : ∀ f p, env.tryCreate f p = false) :
    loadDefaultModelIfNeeded env d = (false, d) := by
  unfold loadDefaultModelIfNeeded
  simp [hs, tryProvidersFor_none env d _ h, tryCandidates_none env d _ h]

/-- C1: with no session loaded and every model/backend load attempt
failing (isReady() == false and it stays false), processBlock leaves every
sample of every channel of the buffer exactly unchanged, for every buffer
and every mix value. -/
theorem c1_load_failure_is_bit_exact_passthrough (env : Env) (d : DenoiserState)
    (hs : d.session = none) (h : ∀ f p, env.tryCreate f p = false)
    (buffer : List (List ℚ)) (mix : ℚ) :
    (processBlock env d buffer mix).1 = buffer := by
  unfold processBlock
  by_cases he : d.enabled = false
  · simp [he]
  · by_cases hm : mix ≤ 0
    · simp [he, hm]
    · simp [he, hm, loadDefaultModelIfNeeded_fails env d hs h]

/-- Witness for C1 at a concrete state, environment, buffer and mix. -/
theorem c1_load_failure_is_bit_exact_passthrough_witness :
    enabledDenoiser.session = none ∧ (∀ f p, envFail.tryCreate f p = false) ∧
    (processBlock envFail enabledDenoiser [[1, 2], [3]] (1/2)).1 = [[1, 2], [3]] :=
  ⟨rfl, fun _ _ => rfl,
    c1_load_failure_is_bit_exact_passthrough envFail enabledDenoiser rfl
      (fun _ _ => rfl) [[1, 2], [3]] (1/2)⟩

/-- C2 (code bug): the mix parameter has no effect whatsoever on
processChannel.  processBlock passes the same channelData pointer as input
and output, so when the mix loop runs, input[i] has already been
overwritten with the wet sample and the blend collapses to
wet[i]*(1-mix) + wet[i]*mix = wet[i]; the claimed dry term input[i]*(1-mix)
never survives. -/
theorem c2_mix_parameter_has_no_effect (env : Env) (sessionLoaded : Bool)
    (ri ro : ℚ) (st : ChannelState) (channelData : List ℚ) (mix1 mix2 : ℚ) :
    processChannel env sessionLoaded ri ro st channelData mix1 =
      processChannel env sessionLoaded ri ro st channelData mix2 := by
  have hmap : ∀ (m : ℚ) (l : List ℚ), List.map (fun a => a * (1 - m) + a * m) l = l := by
    intro m l
    induction l with
    | nil => rfl
    | cons x xs ih =>
      simp only [List.map_cons, ih, List.cons.injEq, and_true]
      ring
  unfold processChannel
  by_cases h1 : mix1 < 1 <;> by_cases h2 : mix2 < 1 <;>
    simp [h1, h2, zipWith_mix_self, hmap]

/-- C4: with fallback disallowed and a specific (non-automatic) preferred
backend, the fallback order is exactly that one backend. -/
theorem c4_no_fallback_single_provider (p : Provider)
    (h : p ≠ Provider.autoSelect) :
    getProviderFallbackOrder p false = [p] := by
  cases p
  · exact absurd rfl h
  all_goals rfl

/-- Witness for C4 at the CPU backend. -/
theorem c4_no_fallback_single_provider_witness :
    Provider.cpu ≠ Provider.autoSelect ∧
    getProviderFallbackOrder Provider.cpu false = [Provider.cpu] :=
  ⟨by decide, c4_no_fallback_single_provider Provider.cpu (by decide)⟩

/-- C5 counterexample: changing the fallback policy through
setAllowFallback does not destroy the session: from a live session and
allowFallback = true, setting it to false leaves isReady() true. -/
theorem c5_set_allow_fallback_counterexample :
    c5state.allowFallback = true ∧
    (setAllowFallback c5state false).allowFallback = false ∧
    isReady (setAllowFallback c5state false) = true := by decide

/-- C5 amended: setModelPath, clearModelPath and setPreferredProvider each
destroy the session (isReady() == false immediately afterwards), while
setAllowFallback only assigns the flag and leaves the session untouched. -/
theorem c5_setters_destroy_session_amended (d : DenoiserState) (f : String)
    (p : Provider) (b : Bool) :
    isReady (setModelPath d f) = false ∧
    isReady (clearModelPath d) = false ∧
    isReady (setPreferredProvider d p) = false ∧
    (setAllowFallback d b).session = d.session := by
  simp [isReady, setModelPath, clearModelPath, setPreferredProvider, setAllowFallback]

/-- The provider loop never touches the channel vector. -/
lemma tryProvidersFor_channels (env : Env) (d : DenoiserState) (file : String) :
    ∀ ps d1, tryProvidersFor env d file ps = some d1 → d1.channels = d.channels := by
  intro ps
  induction ps with
  | nil => intro d1 h; exact absurd h (by simp [tryProvidersFor])
  | cons p rest ih =>
    intro d1 h
    unfold tryProvidersFor at h
    by_cases hu : env.isProviderUsable p = false
    · rw [if_pos hu] at h
      exact ih d1 h
    · rw [if_neg hu] at h
      revert h
      unfold tryCreateSessionForProvider
      by_cases hf : env.fileExists file = false
      · simp only [if_pos hf]
        intro h
        exact ih d1 h
      · simp only [if_neg hf]
        by_cases hc : env.tryCreate file p
        · simp only [if_pos hc]
          intro h
          cases h
          rfl
        · simp only [if_neg hc]
          intro h
          exact ih d1 h

/-- The candidate loop never touches the channel vector. -/
lemma tryCandidates_channels (env : Env) (d : DenoiserState) (providers : List Provider) :
    ∀ cs d1, tryCandidates env d providers cs = some d1 → d1.channels = d.channels := by
  intro cs
  induction cs with
  | nil => intro d1 h; exact absurd h (by simp [tryCandidates])
  | cons c rest ih =>
    intro d1 h
    unfold tryCandidates at h
    by_cases hf : env.fileExists c = false
    · rw [if_pos hf] at h
      exact ih d1 h
    · rw [if_neg hf] at h
      revert h
      cases hp : tryProvidersFor env d c providers with
      | none =>
        intro h
        exact ih d1 h
      | some d2 =>
        intro h
        cases h
        exact tryProvidersFor_channels env d c providers d2 hp

/-- Loading a model never touches the channel vector. -/
lemma loadDefaultModelIfNeeded_channels (env : Env) (d : DenoiserState) :
    (loadDefaultModelIfNeeded env d).2.channels = d.channels := by
  unfold loadDefaultModelIfNeeded
  by_cases hs : d.session.isSome
  · simp [hs]
  · simp only [hs, Bool.false_eq_true, if_false]
    cases hfp : (if env.fileExists d.modelPath
        then tryProvidersFor env d d.modelPath
          (getProviderFallbackOrder d.preferredProvider d.allowFallback)
        else none) with
    | some d1 =>
      revert hfp
      by_cases hf : env.fileExists d.modelPath
      · simp only [if_pos hf]
        intro hfp
        exact tryProvidersFor_channels env d d.modelPath _ d1 hfp
      · simp [hf]
    | none =>
      cases hc : tryCandidates env d
          (getProviderFallbackOrder d.preferredProvider d.allowFallback)
          env.modelCandidates with
      | some d1 =>
        simpa using tryCandidates_channels env d _ env.modelCandidates d1 hc
      | none => simp

/-- Growing the empty vector to n elements yields n zeros. -/
lemma growTo_nil (n : Nat) : growTo [] n = List.replicate n 0 := by
  unfold growTo
  split_ifs with h
  · simp
  · have hn : n = 0 := by
      simp at h
      omega
    simp [hn]

/-- A resampler write fills exactly n destination samples. -/
lemma writtenBlock_length (p : List ℚ) (n : Nat) : (writtenBlock p n).length = n := by
  simp [writtenBlock]
  omega

/-- C8 (code bug): prepare leaves every per-channel scratch vector tempIn
at size zero (the prepare loop clears it instead of sizing it to the
worst-case block), and the first processChannel call afterwards grows it to
the block size inside the audio callback: with matched host and model
rates, a channel whose tempIn is empty ends the call with tempIn sized to
the full block length. -/
theorem c8_first_process_block_resizes_scratch :
    (∀ (env : Env) (d : DenoiserState) (sr : ℚ) (nc mb : Int),
      ((prepare env d sr nc mb).channels.map fun c => c.tempIn.length) =
        List.replicate nc.toNat 0) ∧
    (∀ (env : Env) (s : Bool) (ro : ℚ) (st : ChannelState) (data : List ℚ) (m : ℚ),
      st.tempIn = [] →
      (processChannel env s 1 ro st data m).2.tempIn.length = data.length) := by
  constructor
  · intro env d sr nc mb
    unfold prepare
    rw [loadDefaultModelIfNeeded_channels]
    simp only [List.map_map]
    have hconst : ((fun c => c.tempIn.length) ∘ prepareChannel) = fun _ => 0 := by
      funext c
      rfl
    rw [hconst, List.map_const']
    congr 1
    simp [List.length_append, List.length_take, List.length_replicate]
    omega
  · intro env s ro st data m hst
    unfold processChannel
    simp only [hst]
    have hceil : (⌈((data.length : Int) : ℚ) / 1⌉ : Int) = data.length := by
      simp
    simp only [hceil]
    simp [growTo_nil, writtenBlock_length, List.drop_replicate]

/-- Witness for C8 on the freshly prepared channel state and a one-sample
block. -/
theorem c8_first_process_block_resizes_scratch_witness :
    ((prepare envAll enabledDenoiser 48000 1 512).channels.map
      fun c => c.tempIn.length) = List.replicate (1 : Int).toNat 0 ∧
    (prepareChannel initChannelState).tempIn = [] ∧
    (processChannel envAll true 1 1 (prepareChannel initChannelState)
      [5] 1).2.tempIn.length = [5].length :=
  ⟨c8_first_process_block_resizes_scratch.1 envAll enabledDenoiser 48000 1 512,
   rfl,
   c8_first_process_block_resizes_scratch.2 envAll true 1
     (prepareChannel initChannelState) [5] 1 rfl⟩

/-- C9: the backend-name round trip is stable: converting a provider to its
canonical string, parsing it back and printing again yields the same
canonical string (in fact parsing the canonical string returns the same
provider). -/
theorem c9_provider_string_round_trip (p : Provider) :
    providerToString (providerFromString (providerToString p)) =
      providerToString p := by
  cases p <;> decide

/-- C10: while the denoiser is disabled, processBlock returns immediately,
leaving the buffer and the whole state unchanged, for every environment,
buffer and mix, regardless of session state. -/
theorem c10_disabled_is_identity (env : Env) (d : DenoiserState)
    (buffer : List (List ℚ)) (mix : ℚ) (h : d.enabled = false) :
    processBlock env d buffer mix = (buffer, d) := by
  simp [processBlock, h]

/-- Witness for C10: the default-constructed denoiser is disabled, and a
concrete block passes through untouched even with a mix of 1. -/
theorem c10_disabled_is_identity_witness :
    initDenoiser.enabled = false ∧
    processBlock envAll initDenoiser [[1, 2]] 1 = ([[1, 2]], initDenoiser) :=
  ⟨rfl, c10_disabled_is_identity envAll initDenoiser [[1, 2]] 1 rfl⟩

/-- Capacity is untouched by push. -/
lemma push_capacity (b : RingBuffer) (data : List ℚ) (count : Int) :
    (b.push data count).capacity = b.capacity := by
  unfold RingBuffer.push
  split_ifs <;> rfl

/-- The available count after push: unchanged for count <= 0, otherwise
saturating at capacity after adding the clamped count. -/
lemma push_availableSamples (b : RingBuffer) (data : List ℚ) (count : Int) :
    (b.push data count).availableSamples =
      if count ≤ 0 then b.availableSamples
      else min b.capacity (b.availableSamples +
        (if count > b.capacity then b.capacity else count)) := by
  unfold RingBuffer.push
  split_ifs <;> rfl

/-- Capacity is untouched by pop. -/
lemma pop_capacity (b : RingBuffer) (count : Int) (fill : Bool) :
    (b.pop count fill).2.2.capacity = b.capacity := by
  unfold RingBuffer.pop
  split_ifs <;> rfl

/-- The available count after pop: unchanged for count <= 0, otherwise
reduced by the number of samples actually read. -/
lemma pop_availableSamples (b : RingBuffer) (count : Int) (fill : Bool) :
    (b.pop count fill).2.2.availableSamples =
      if count ≤ 0 then b.availableSamples
      else b.availableSamples - min count b.availableSamples := by
  unfold RingBuffer.pop
  split_ifs <;> rfl

/-- Every single RingBuffer operation preserves 0 <= available <= capacity. -/
lemma rbop_apply_inv (b : RingBuffer) (op : RBOp)
    (h0 : 0 ≤ b.availableSamples) (h1 : b.availableSamples ≤ b.capacity) :
    0 ≤ (RBOp.apply b op).availableSamples ∧
      (RBOp.apply b op).availableSamples ≤ (RBOp.apply b op).capacity := by
  cases op with
  | resize n =>
    simp only [RBOp.apply, RingBuffer.resize]
    constructor
    · exact le_refl 0
    · exact le_trans zero_le_one (le_max_right n 1)
  | clear =>
    simp only [RBOp.apply, RingBuffer.clear]
    exact ⟨le_refl 0, le_trans h0 h1⟩
  | push data count =>
    simp only [RBOp.apply, push_availableSamples, push_capacity]
    split_ifs <;> omega
  | pop count fill =>
    simp only [RBOp.apply, pop_availableSamples, pop_capacity]
    split_ifs <;> omega

/-- C7: along every sequence of RingBuffer operations starting from the
default-constructed buffer, the invariant 0 <= available() <= capacity
holds after every operation (stated for the arbitrary sequence, hence for
every prefix). -/
theorem c7_ring_buffer_available_invariant (ops : List RBOp) :
    0 ≤ (ops.foldl RBOp.apply initRingBuffer).availableSamples ∧
    (ops.foldl RBOp.apply initRingBuffer).availableSamples ≤
      (ops.foldl RBOp.apply initRingBuffer).capacity := by
  have main : ∀ (l : List RBOp) (b : RingBuffer),
      0 ≤ b.availableSamples → b.availableSamples ≤ b.capacity →
      0 ≤ (l.foldl RBOp.apply b).availableSamples ∧
        (l.foldl RBOp.apply b).availableSamples ≤ (l.foldl RBOp.apply b).capacity := by
    intro l
    induction l with
    | nil => intro b h0 h1; exact ⟨h0, h1⟩
    | cons op rest ih =>
      intro b h0 h1
      obtain ⟨g0, g1⟩ := rbop_apply_inv b op h0 h1
      simpa using ih (RBOp.apply b op) g0 g1
  exact main ops initRingBuffer (le_refl 0) (le_refl 0)

/-- Length of a contents view. -/
lemma contents_length (b : RingBuffer) : b.contents.length = b.availableSamples.toNat := by
  rw [RingBuffer.contents, List.length_map, List.length_range]

/-- Element of a contents view. -/
lemma contents_getElem (b : RingBuffer) (j : Nat) (h : j < b.contents.length) :
    b.contents[j] = b.buffer.getD (wrapIdx b.capacity (b.readIndex + j)) 0 := by
  simp only [RingBuffer.contents, List.getElem_map, List.getElem_range]

/-- Two circular positions with congruent offsets share a storage index. -/
lemma wrapIdx_congr (cap x y : Int) (h : x % cap = y % cap) :
    wrapIdx cap x = wrapIdx cap y := by
  unfold wrapIdx
  rw [h]

/-- Equal storage indices force congruent offsets (positive capacity). -/
lemma wrapIdx_inj (cap x y : Int) (hcap : 0 < cap) (h : wrapIdx cap x = wrapIdx cap y) :
    x % cap = y % cap := by
  unfold wrapIdx at h
  have h1 : 0 ≤ x % cap := Int.emod_nonneg x (by omega)
  have h2 : 0 ≤ y % cap := Int.emod_nonneg y (by omega)
  omega

/-- A nonzero difference smaller than the modulus is not a multiple of it. -/
lemma not_dvd_of_bounds (cap d : Int) (hd : d ≠ 0) (h1 : -cap < d) (h2 : d < cap) :
    ¬ cap ∣ d := by
  intro hdvd
  rcases lt_trichotomy d 0 with hneg | hzero | hpos
  · have hle : cap ≤ -d := Int.le_of_dvd (by omega) (dvd_neg.mpr hdvd)
    omega
  · exact hd hzero
  · have hle : cap ≤ d := Int.le_of_dvd hpos hdvd
    omega

/-- Distinct storage indices from a small nonzero offset difference. -/
lemma wrapIdx_ne_of_bounds (cap x y : Int) (hcap : 0 < cap) (hd : x - y ≠ 0)
    (h1 : -cap < x - y) (h2 : x - y < cap) :
    wrapIdx cap x ≠ wrapIdx cap y := by
  intro h
  have hmod : x % cap = y % cap := wrapIdx_inj cap x y hcap h
  have hsub : (x - y) % cap = 0 := by
    rw [Int.sub_emod, hmod]
    simp
  exact not_dvd_of_bounds cap (x - y) hd h1 h2 (Int.dvd_iff_emod_eq_zero.mpr hsub)

/-- Circular writes preserve the store length. -/
lemma writeCircular_length (data : List ℚ) :
    ∀ (buf : List ℚ) (cap w : Int), (writeCircular buf cap w data).length = buf.length := by
  induction data with
  | nil => intro buf cap w; rfl
  | cons x xs ih =>
    intro buf cap w
    rw [writeCircular, ih]
    simp

/-- A storage index hit by none of the circular writes keeps its value. -/
lemma writeCircular_getD_untouched (data : List ℚ) :
    ∀ (buf : List ℚ) (cap w : Int) (p : Nat),
      (∀ i : Nat, i < data.length → wrapIdx cap (w + i) ≠ p) →
      (writeCircular buf cap w data).getD p 0 = buf.getD p 0 := by
  induction data with
  | nil => intro buf cap w p _; rfl
  | cons x xs ih =>
    intro buf cap w p h
    rw [writeCircular]
    rw [ih _ cap (w + 1) p ?later]
    case later =>
      intro i hi
      have hx := h (i + 1) (by simpa using Nat.succ_lt_succ hi)
      have harg : w + 1 + (i : Int) = w + ((i : Nat) + 1 : Nat) := by
        push_cast
        ring
      rw [harg]
      exact hx
    have hne : wrapIdx cap w ≠ p := by
      have hx := h 0 (by simp)
      simpa using hx
    simp [List.getD_eq_getElem?_getD, List.getElem?_set_ne hne]

/-- The storage index of write i holds element i of the written data, when
the writes fit in the store (at most capacity many, so no later write can
revisit the index). -/
lemma writeCircular_getD_written (data : List ℚ) :
    ∀ (buf : List ℚ) (cap w : Int) (i : Nat),
      0 < cap → (buf.length : Int) = cap → (data.length : Int) ≤ cap →
      i < data.length →
      (writeCircular buf cap w data).getD (wrapIdx cap (w + i)) 0 = data.getD i 0 := by
  induction data with
  | nil => intro buf cap w i _ _ _ hi; exact absurd hi (by simp)
  | cons x xs ih =>
    intro buf cap w i hcap hbuf hfit hi
    rw [writeCircular]
    cases i with
    | zero =>
      have hidx : wrapIdx cap (w + (0 : Nat)) = wrapIdx cap w := by
        norm_num
      rw [hidx]
      rw [writeCircular_getD_untouched xs _ cap (w + 1) _ ?notback]
      case notback =>
        intro j hj
        apply wrapIdx_ne_of_bounds cap (w + 1 + j) w hcap
        · omega
        · have : (j : Int) < (xs.length : Int) := by exact_mod_cast hj
          simp at hfit
          omega
        · have : (j : Int) < (xs.length : Int) := by exact_mod_cast hj
          have hxs : (xs.length : Int) + 1 ≤ cap := by
            simp at hfit
            omega
          omega
      have hplt : wrapIdx cap w < buf.length := by
        have h1 : 0 ≤ w % cap := Int.emod_nonneg w (by omega)
        have h2 : w % cap < cap := Int.emod_lt_of_pos w hcap
        unfold wrapIdx
        omega
      simp [List.getD_eq_getElem?_getD, List.getElem?_set_self, hplt]
    | succ i =>
      have harg : w + ((i + 1 : Nat) : Int) = (w + 1) + (i : Int) := by
        push_cast
        ring
      rw [harg]
      rw [ih (buf.set (wrapIdx cap w) x) cap (w + 1) i hcap (by simpa using hbuf)
        (by simp at hfit ⊢; omega) (by simpa using Nat.lt_of_succ_lt_succ hi)]
      simp

/-- Adding one full modulus does not move a circular offset. -/
lemma emod_add_cap (x cap : Int) : (x + cap) % cap = x % cap := by
  simp

/-- The record RingBuffer::push builds for a positive count within
capacity. -/
lemma push_eq_record (b : RingBuffer) (data : List ℚ) (count : Int)
    (h0 : 0 < count) (hle : count ≤ b.capacity) :
    b.push data count =
      { buffer := writeCircular b.buffer b.capacity b.writeIndex (data.take count.toNat)
        capacity := b.capacity
        writeIndex := (b.writeIndex + count) % b.capacity
        readIndex := if min b.capacity (b.availableSamples + count) = b.capacity
                     then (b.writeIndex + count) % b.capacity else b.readIndex
        availableSamples := min b.capacity (b.availableSamples + count) } := by
  rw [RingBuffer.push, if_neg (by omega)]
  have hc : (if count > b.capacity then b.capacity else count) = count := if_neg (by omega)
  simp only [hc, if_pos h0]

/-- Pushing a block of count = length data <= capacity samples preserves
well-formedness. -/
lemma push_WF (b : RingBuffer) (data : List ℚ) (count : Int)
    (hwf : b.WF) (hcount : count = (data.length : Int)) (hle : count ≤ b.capacity) :
    (b.push data count).WF := by
  obtain ⟨hcap, hlen, hr0, hr1, hw0, hw1, ha0, ha1, hwr⟩ := hwf
  by_cases hc0 : count ≤ 0
  · rw [RingBuffer.push, if_pos hc0]
    exact ⟨hcap, hlen, hr0, hr1, hw0, hw1, ha0, ha1, hwr⟩
  · rw [push_eq_record b data count (by omega) hle]
    have hwb : 0 ≤ (b.writeIndex + count) % b.capacity :=
      Int.emod_nonneg _ (by omega)
    have hwb2 : (b.writeIndex + count) % b.capacity < b.capacity :=
      Int.emod_lt_of_pos _ (by omega)
    refine ⟨hcap, ?_, ?_, ?_, hwb, hwb2, ?_, ?_, ?_⟩
    · rw [writeCircular_length]
      exact hlen
    · split_ifs with hfull
      · exact hwb
      · exact hr0
    · split_ifs with hfull
      · exact hwb2
      · exact hr1
    · show (0 : Int) ≤ min b.capacity (b.availableSamples + count)
      omega
    · show min b.capacity (b.availableSamples + count) ≤ b.capacity
      omega
    · split_ifs with hfull
      · rw [hfull]
        rw [emod_add_cap]
        exact (Int.emod_eq_of_lt hwb hwb2).symm
      · have hmin : min b.capacity (b.availableSamples + count) =
            b.availableSamples + count := by omega
        rw [hmin, hwr]
        rw [Int.emod_add_emod]
        ring_nf

/-- The tuple RingBuffer::pop builds when the request is positive and fully
available. -/
lemma pop_eq_record (b : RingBuffer) (n : Int) (f : Bool)
    (h0 : 0 < n) (hn : n ≤ b.availableSamples) :
    b.pop n f =
      (n,
       (List.range n.toNat).map (fun (j : Nat) =>
         b.buffer.getD (wrapIdx b.capacity (b.readIndex + (j : Int))) 0),
       { b with readIndex := (b.readIndex + n) % b.capacity
                availableSamples := b.availableSamples - n }) := by
  rw [RingBuffer.pop, if_neg (by omega)]
  have ht : min n b.availableSamples = n := min_eq_left hn
  simp only [ht, if_pos h0, lt_irrefl, and_false, if_false]

/-- What pop returns and leaves behind, through the contents view: the
oldest n samples come out, the rest stay, and well-formedness is kept. -/
lemma pop_spec (b : RingBuffer) (n : Int) (hwf : b.WF)
    (h0 : 0 < n) (hn : n ≤ b.availableSamples) :
    (b.pop n false).1 = n ∧
    (b.pop n false).2.1 = b.contents.take n.toNat ∧
    (b.pop n false).2.2.contents = b.contents.drop n.toNat ∧
    (b.pop n false).2.2.WF ∧
    (b.pop n false).2.2.availableSamples = b.availableSamples - n := by
  obtain ⟨hcap, hlen, hr0, hr1, hw0, hw1, ha0, ha1, hwr⟩ := hwf
  rw [pop_eq_record b n false h0 hn]
  have hrb : 0 ≤ (b.readIndex + n) % b.capacity := Int.emod_nonneg _ (by omega)
  have hrb2 : (b.readIndex + n) % b.capacity < b.capacity :=
    Int.emod_lt_of_pos _ (by omega)
  refine ⟨rfl, ?_, ?_,
    ⟨hcap, hlen, hrb, hrb2, hw0, hw1,
      (show (0 : Int) ≤ b.availableSamples - n by omega),
      (show b.availableSamples - n ≤ b.capacity by omega), ?_⟩, rfl⟩
  · rw [RingBuffer.contents, ← List.map_take, List.take_range, min_eq_left (by omega)]
  · apply List.ext_getElem
    · rw [contents_length, List.length_drop, contents_length]
      show (b.availableSamples - n).toNat = b.availableSamples.toNat - n.toNat
      omega
    · intro j h1 h2
      have h2l : j < b.availableSamples.toNat - n.toNat := by
        rw [List.length_drop, contents_length] at h2
        exact h2
      rw [contents_getElem _ j h1]
      show b.buffer.getD
          (wrapIdx b.capacity ((b.readIndex + n) % b.capacity + (j : Int))) 0 =
        (b.contents.drop n.toNat)[j]
      rw [List.getElem_drop]
      rw [contents_getElem b (n.toNat + j) (by rw [contents_length]; omega)]
      have hstep : wrapIdx b.capacity ((b.readIndex + n) % b.capacity + (j : Int)) =
          wrapIdx b.capacity (b.readIndex + ((n.toNat + j : Nat) : Int)) := by
        apply wrapIdx_congr
        rw [Int.emod_add_emod]
        congr 1
        push_cast
        omega
      rw [hstep]
  · show b.writeIndex = ((b.readIndex + n) % b.capacity +
      (b.availableSamples - n)) % b.capacity
    rw [hwr, Int.emod_add_emod]
    congr 1
    ring

/-- Contents of an explicitly built RingBuffer record. -/
lemma contents_mk (B : List ℚ) (cap R W A : Int) :
    ({ buffer := B, capacity := cap, readIndex := R, writeIndex := W,
       availableSamples := A } : RingBuffer).contents =
      (List.range A.toNat).map fun (j : Nat) => B.getD (wrapIdx cap (R + (j : Int))) 0 :=
  rfl

/-- Congruent summands stay congruent after adding the same offset. -/
lemma emod_shift (cap a b x : Int) (h : a % cap = b % cap) :
    (a + x) % cap = (b + x) % cap := by
  rw [← Int.emod_add_emod a cap x, h, Int.emod_add_emod]

/-- getD inside the length range is getElem. -/
lemma getD_eq_getElem0 (l : List ℚ) (i : Nat) (h : i < l.length) : l.getD i 0 = l[i] := by
  simp [List.getD_eq_getElem?_getD, List.getElem?_eq_getElem h]

/-- The queue refinement of RingBuffer::push for pushes of at most capacity
samples (count = length of data): the new contents are exactly the newest
min(capacity, available + count) samples of old-contents ++ data, in
arrival order; only the oldest excess is dropped. -/
lemma push_contents_eq (b : RingBuffer) (data : List ℚ) (count : Int)
    (hwf : b.WF) (hcount : count = (data.length : Int)) (hle : count ≤ b.capacity) :
    (b.push data count).contents =
      takeLastL (b.contents ++ data)
        (min b.capacity (b.availableSamples + count)).toNat := by
  obtain ⟨hcap, hlen, hr0, hr1, hw0, hw1, ha0, ha1, hwr⟩ := hwf
  have hwmod : b.writeIndex % b.capacity =
      (b.readIndex + b.availableSamples) % b.capacity := by
    rw [hwr]
    exact Int.emod_emod_of_dvd _ dvd_rfl
  by_cases hc0 : count ≤ 0
  · have hd : data = [] := by
      have hlen0 : data.length = 0 := by omega
      exact List.eq_nil_of_length_eq_zero hlen0
    subst hd
    rw [RingBuffer.push, if_pos hc0]
    have hmin : min b.capacity (b.availableSamples + count) = b.availableSamples := by
      simp at hcount
      omega
    rw [hmin, List.append_nil, takeLastL, contents_length]
    simp
  · have htake : data.take count.toNat = data := by
      apply List.take_of_length_le
      omega
    rw [push_eq_record b data count (by omega) hle, htake]
    by_cases hfull : b.capacity ≤ b.availableSamples + count
    · -- the push fills the buffer: readIndex snaps to the write position
      have hmin : min b.capacity (b.availableSamples + count) = b.capacity :=
        min_eq_left hfull
      rw [hmin]
      have hite : (if b.capacity = b.capacity
          then (b.writeIndex + count) % b.capacity else b.readIndex) =
          (b.writeIndex + count) % b.capacity := if_pos rfl
      rw [hite, contents_mk]
      apply List.ext_getElem
      · rw [List.length_map, List.length_range, takeLastL, List.length_drop,
          List.length_append, contents_length]
        omega
      · intro j hj1 hj2
        simp only [List.getElem_map, List.getElem_range]
        rw [List.length_map, List.length_range] at hj1
        have hjc : (j : Int) < b.capacity := by omega
        simp only [takeLastL, List.getElem_drop]
        have hD : (b.contents ++ data).length - b.capacity.toNat =
            (b.availableSamples + count - b.capacity).toNat := by
          rw [List.length_append, contents_length]
          omega
        simp only [hD]
        have e1 : ((b.writeIndex + count) % b.capacity + (j : Int)) % b.capacity
            = (b.readIndex + b.availableSamples + count + (j : Int)) % b.capacity := by
          rw [Int.emod_add_emod]
          exact emod_shift b.capacity _ _ (j : Int)
            (emod_shift b.capacity _ _ count hwmod)
        by_cases hold : (b.availableSamples + count - b.capacity).toNat + j <
            b.availableSamples.toNat
        · -- the element is an old sample that survived
          rw [List.getElem_append_left (by rw [contents_length]; omega)]
          rw [contents_getElem b _ (by rw [contents_length]; omega)]
          have hidx : wrapIdx b.capacity ((b.writeIndex + count) % b.capacity + (j : Int))
              = wrapIdx b.capacity (b.readIndex +
                  (((b.availableSamples + count - b.capacity).toNat + j : Nat) : Int)) := by
            apply wrapIdx_congr
            rw [e1, ← emod_add_cap (b.readIndex +
              (((b.availableSamples + count - b.capacity).toNat + j : Nat) : Int)) b.capacity]
            congr 1
            push_cast
            omega
          rw [hidx]
          apply writeCircular_getD_untouched
          intro i hi
          have hii : (i : Int) < count := by omega
          have hcast : ((((b.availableSamples + count - b.capacity).toNat + j : Nat)) : Int)
              = b.availableSamples + count - b.capacity + (j : Int) := by
            push_cast
            omega
          have hwi : wrapIdx b.capacity (b.writeIndex + (i : Int)) =
              wrapIdx b.capacity (b.readIndex + b.availableSamples + (i : Int)) :=
            wrapIdx_congr _ _ _ (emod_shift b.capacity _ _ (i : Int) hwmod)
          rw [hwi]
          apply wrapIdx_ne_of_bounds _ _ _ (by omega)
          · rw [hcast]
            omega
          · rw [hcast]
            omega
          · rw [hcast]
            omega
        · -- the element is one of the pushed samples
          have hbound : (b.availableSamples + count - b.capacity).toNat + j <
              (b.contents ++ data).length := by
            rw [List.length_append, contents_length]
            omega
          rw [List.getElem_append_right (by rw [contents_length]; omega)]
          have hi2 : ((b.availableSamples + count - b.capacity).toNat + j) -
              b.contents.length < data.length := by
            rw [contents_length]
            omega
          have hidx : wrapIdx b.capacity ((b.writeIndex + count) % b.capacity + (j : Int))
              = wrapIdx b.capacity (b.writeIndex +
                  ((((b.availableSamples + count - b.capacity).toNat + j) -
                    b.contents.length : Nat) : Int)) := by
            apply wrapIdx_congr
            rw [e1]
            have e2 : (b.writeIndex +
                ((((b.availableSamples + count - b.capacity).toNat + j) -
                  b.contents.length : Nat) : Int)) % b.capacity
                = (b.readIndex + b.availableSamples +
                  ((((b.availableSamples + count - b.capacity).toNat + j) -
                    b.contents.length : Nat) : Int)) % b.capacity :=
              emod_shift b.capacity _ _ _ hwmod
            rw [e2]
            rw [← emod_add_cap (b.readIndex + b.availableSamples +
              ((((b.availableSamples + count - b.capacity).toNat + j) -
                b.contents.length : Nat) : Int)) b.capacity]
            congr 1
            rw [contents_length]
            omega
          rw [hidx]
          rw [writeCircular_getD_written data b.buffer b.capacity b.writeIndex _
            (by omega) hlen (by omega) hi2]
          exact getD_eq_getElem0 data _ hi2
    · -- the push leaves free space: nothing is dropped
      have hmin : min b.capacity (b.availableSamples + count) =
          b.availableSamples + count := by omega
      rw [hmin]
      have hite : (if b.availableSamples + count = b.capacity
          then (b.writeIndex + count) % b.capacity else b.readIndex) =
          b.readIndex := if_neg (by omega)
      rw [hite, contents_mk]
      apply List.ext_getElem
      · rw [List.length_map, List.length_range, takeLastL, List.length_drop,
          List.length_append, contents_length]
        omega
      · intro j hj1 hj2
        simp only [List.getElem_map, List.getElem_range]
        rw [List.length_map, List.length_range] at hj1
        simp only [takeLastL, List.getElem_drop]
        have hD : (b.contents ++ data).length -
            (b.availableSamples + count).toNat = 0 := by
          rw [List.length_append, contents_length]
          omega
        simp only [hD]
        by_cases hold : j < b.availableSamples.toNat
        · rw [List.getElem_append_left (by rw [contents_length]; omega)]
          rw [contents_getElem b _ (by rw [contents_length]; omega)]
          have hzero : (0 + j : Nat) = j := by omega
          rw [hzero]
          apply writeCircular_getD_untouched
          intro i hi
          have hwi : wrapIdx b.capacity (b.writeIndex + (i : Int)) =
              wrapIdx b.capacity (b.readIndex + b.availableSamples + (i : Int)) :=
            wrapIdx_congr _ _ _ (emod_shift b.capacity _ _ (i : Int) hwmod)
          rw [hwi]
          apply wrapIdx_ne_of_bounds _ _ _ (by omega)
          · omega
          · omega
          · omega
        · have hzero : (0 + j : Nat) = j := by omega
          simp only [hzero]
          rw [List.getElem_append_right (by rw [contents_length]; omega)]
          have hi2 : j - b.contents.length < data.length := by
            rw [contents_length]
            omega
          have hidx : wrapIdx b.capacity (b.readIndex + (j : Int)) =
              wrapIdx b.capacity (b.writeIndex + ((j - b.contents.length : Nat) : Int)) := by
            apply wrapIdx_congr
            rw [← Int.emod_add_emod b.writeIndex]
            rw [hwmod]
            rw [Int.emod_add_emod]
            congr 1
            rw [contents_length]
            omega
          rw [hidx]
          rw [writeCircular_getD_written data b.buffer b.capacity b.writeIndex _
            (by omega) hlen (by omega) hi2]
          exact getD_eq_getElem0 data _ hi2

/-- C6 counterexample: pushing 3 samples into a capacity-2 buffer keeps the
FIRST two pushed samples (the clamped count copies data[0..capacity)), not
the last min(capacity, available + count) samples of the pushed sequence as
the claim states. -/
theorem c6_push_overflow_counterexample :
    ((initRingBuffer.resize 2).push [1, 2, 3] 3).contents = [1, 2] ∧
    takeLastL ((initRingBuffer.resize 2).contents ++ [1, 2, 3])
      (min (initRingBuffer.resize 2).capacity
        ((initRingBuffer.resize 2).availableSamples + 3)).toNat = [2, 3] ∧
    ([1, 2] : List ℚ) ≠ [2, 3] := by decide

/-- C6 amended: for pushes of count <= capacity samples (the push of count
samples of data), after the push the buffer holds exactly the last
min(capacity, previousAvailable + count) samples of previous contents
followed by the pushed data, in arrival order, and the buffer stays
well-formed (the push is never fatal); when count exceeds capacity the code
instead keeps only the first capacity samples of the pushed block. -/
theorem c6_push_keeps_newest_amended (b : RingBuffer) (data : List ℚ) (count : Int)
    (hwf : b.WF) (hcount : count = (data.length : Int)) (hle : count ≤ b.capacity) :
    (b.push data count).contents =
      takeLastL (b.contents ++ data)
        (min b.capacity (b.availableSamples + count)).toNat ∧
    (b.push data count).WF :=
  ⟨push_contents_eq b data count hwf hcount hle,
   push_WF b data count hwf hcount hle⟩

/-- Witness for C6 on a concrete well-formed buffer. -/
theorem c6_push_keeps_newest_amended_witness :
    (initRingBuffer.resize 2).WF ∧ (2 : Int) = (([5, 6] : List ℚ).length : Int) ∧
    (2 : Int) ≤ (initRingBuffer.resize 2).capacity ∧
    (((initRingBuffer.resize 2).push [5, 6] 2).contents =
      takeLastL ((initRingBuffer.resize 2).contents ++ [5, 6])
        (min (initRingBuffer.resize 2).capacity
          ((initRingBuffer.resize 2).availableSamples + 2)).toNat ∧
     ((initRingBuffer.resize 2).push [5, 6] 2).WF) :=
  ⟨by decide, by decide, by decide,
   c6_push_keeps_newest_amended (initRingBuffer.resize 2) [5, 6] 2
     (by decide) (by decide) (by decide)⟩

/-- Special case of the push refinement when the pushed block fits in the
free space: nothing is dropped. -/
lemma push_contents_append (b : RingBuffer) (data : List ℚ) (count : Int)
    (hwf : b.WF) (hcount : count = (data.length : Int))
    (hroom : b.availableSamples + count ≤ b.capacity) :
    (b.push data count).contents = b.contents ++ data ∧
    (b.push data count).WF ∧
    (b.push data count).availableSamples = b.availableSamples + count := by
  have ha0 : 0 ≤ b.availableSamples := hwf.2.2.2.2.2.2.1
  have hc0 : 0 ≤ count := by omega
  have hle : count ≤ b.capacity := by omega
  refine ⟨?_, push_WF b data count hwf hcount hle, ?_⟩
  · rw [push_contents_eq b data count hwf hcount hle]
    have hmin : min b.capacity (b.availableSamples + count) =
        b.availableSamples + count := min_eq_right hroom
    rw [hmin, takeLastL]
    have hlen2 : (b.contents ++ data).length = (b.availableSamples + count).toNat := by
      rw [List.length_append, contents_length]
      omega
    rw [hlen2]
    simp
  · rw [push_availableSamples]
    split_ifs <;> omega

/-- One model frame is 480 samples. -/
lemma modelFrameSize_toNat : modelFrameSize.toNat = 480 := rfl

/-- Full specification of the frame-draining loop on the contents views:
every full frame of the input fifo is popped in order; each frame for which
the model call succeeds contributes the model output, and each frame for
which it fails (the bypass path) contributes the original input frame
unchanged; the partial tail frame stays in the input fifo. -/
lemma drainLoop_spec (rm : List ℚ → Option (List ℚ))
    (hrm : ∀ f o, rm f = some o → o.length = modelFrameSize.toNat) :
    ∀ (frames : List (List ℚ)) (fuel : Nat) (inF outF : RingBuffer)
      (rest fIn fOut : List ℚ),
      inF.WF → outF.WF →
      inF.contents = frames.flatten ++ rest →
      (∀ f ∈ frames, f.length = modelFrameSize.toNat) →
      rest.length < modelFrameSize.toNat →
      outF.availableSamples + modelFrameSize * frames.length ≤ outF.capacity →
      frames.length ≤ fuel →
      (drainLoop rm fuel inF outF fIn fOut).1.contents = rest ∧
      (drainLoop rm fuel inF outF fIn fOut).2.1.contents =
        outF.contents ++ (frames.map fun f =>
          match rm f with
          | some o => o
          | none => f).flatten := by
  intro frames
  induction frames with
  | nil =>
    intro fuel inF outF rest fIn fOut hwfi hwfo hcont hframes hrest hroom hfuel
    have hcond : ¬ modelFrameSize ≤ inF.availableSamples := by
      have hl : inF.availableSamples.toNat = rest.length := by
        rw [← contents_length, hcont]
        simp
      have ha0 : 0 ≤ inF.availableSamples := hwfi.2.2.2.2.2.2.1
      simp only [modelFrameSize] at hrest ⊢
      omega
    cases fuel with
    | zero => exact ⟨by simpa using hcont, by simp [drainLoop]⟩
    | succ fuel =>
      rw [drainLoop, if_neg hcond]
      exact ⟨by simpa using hcont, by simp⟩
  | cons f fs ih =>
    intro fuel inF outF rest fIn fOut hwfi hwfo hcont hframes hrest hroom hfuel
    have hflen : f.length = modelFrameSize.toNat := hframes f (by simp)
    have havail : inF.availableSamples.toNat =
        f.length + (fs.flatten.length + rest.length) := by
      rw [← contents_length, hcont]
      simp
    have ha0 : 0 ≤ inF.availableSamples := hwfi.2.2.2.2.2.2.1
    have hcond : modelFrameSize ≤ inF.availableSamples := by
      simp only [modelFrameSize] at hflen ⊢
      omega
    cases fuel with
    | zero => exact absurd hfuel (by simp)
    | succ fuel =>
      rw [drainLoop, if_pos hcond]
      have hp := pop_spec inF modelFrameSize hwfi (by simp [modelFrameSize])
        (by simp only [modelFrameSize] at hflen ⊢; omega)
      have hpopped : (inF.pop modelFrameSize false).2.1 = f := by
        rw [hp.2.1, hcont]
        rw [List.flatten_cons, List.append_assoc, ← hflen]
        exact List.take_left f (fs.flatten ++ rest)
      have hleft : (inF.pop modelFrameSize false).2.2.contents = fs.flatten ++ rest := by
        rw [hp.2.2.1, hcont]
        rw [List.flatten_cons, List.append_assoc, ← hflen]
        exact List.drop_left f (fs.flatten ++ rest)
      have hwfi2 : (inF.pop modelFrameSize false).2.2.WF := hp.2.2.2.1
      cases hrmf : rm f with
      | some o =>
        have holen : o.length = modelFrameSize.toNat := hrm f o hrmf
        have hpush := push_contents_append outF o modelFrameSize hwfo
          (by rw [holen]; simp [modelFrameSize])
          (by simp only [modelFrameSize, List.length_cons] at hroom ⊢; omega)
        simp only [hpopped, hrmf]
        have hres := ih fuel (inF.pop modelFrameSize false).2.2
          (outF.push o modelFrameSize) rest f o hwfi2 hpush.2.1 hleft
          (fun g hg => hframes g (by simp [hg]))
          hrest
          (by
            rw [hpush.2.2, push_capacity]
            have hM : modelFrameSize * ((fs.length : Int) + 1) =
                modelFrameSize * (fs.length : Int) + modelFrameSize := by ring
            simp only [List.length_cons] at hroom
            push_cast at hroom ⊢
            omega)
          (by simpa using hfuel)
        refine ⟨hres.1, ?_⟩
        rw [hres.2, hpush.1]
        simp [hrmf, List.append_assoc]
      | none =>
        have hpush := push_contents_append outF f modelFrameSize hwfo
          (by rw [hflen]; simp [modelFrameSize])
          (by simp only [modelFrameSize, List.length_cons] at hroom ⊢; omega)
        simp only [hpopped, hrmf]
        have hres := ih fuel (inF.pop modelFrameSize false).2.2
          (outF.push f modelFrameSize) rest f fOut hwfi2 hpush.2.1 hleft
          (fun g hg => hframes g (by simp [hg]))
          hrest
          (by
            rw [hpush.2.2, push_capacity]
            have hM : modelFrameSize * ((fs.length : Int) + 1) =
                modelFrameSize * (fs.length : Int) + modelFrameSize := by ring
            simp only [List.length_cons] at hroom
            push_cast at hroom ⊢
            omega)
          (by simpa using hfuel)
        refine ⟨hres.1, ?_⟩
        rw [hres.2, hpush.1]
        simp [hrmf, List.append_assoc]

/-- C3: in the frame-draining loop, every full model frame popped from the
input Elastic Frame Buffer is attempted in order; any frame on which
runModel fails contributes the original input frame unchanged to the
output Elastic Frame Buffer (any frame on which it succeeds contributes the
model output), only the partial tail remains in the input fifo — so
subsequent frames are still attempted after a failure; and
processBlock leaves the session of a ready denoiser untouched (isReady()
stays true, inference failures being confined to runModel, which returns
false instead of throwing). -/
theorem c3_failed_inference_bypasses_frames :
    (∀ (rm : List ℚ → Option (List ℚ)) (inF outF : RingBuffer)
       (frames : List (List ℚ)) (rest fIn fOut : List ℚ),
      (∀ f o, rm f = some o → o.length = modelFrameSize.toNat) →
      inF.WF → outF.WF →
      inF.contents = frames.flatten ++ rest →
      (∀ f ∈ frames, f.length = modelFrameSize.toNat) →
      rest.length < modelFrameSize.toNat →
      outF.availableSamples + modelFrameSize * frames.length ≤ outF.capacity →
      (drainFrames rm inF outF fIn fOut).2.1.contents =
        outF.contents ++ (frames.map fun f =>
          match rm f with
          | some o => o
          | none => f).flatten ∧
      (drainFrames rm inF outF fIn fOut).1.contents = rest) ∧
    (∀ (env : Env) (d : DenoiserState) (buffer : List (List ℚ)) (mix : ℚ) (s : Unit),
      d.session = some s → ((processBlock env d buffer mix).2).session = some s) := by
  constructor
  · intro rm inF outF frames rest fIn fOut hrm hwfi hwfo hcont hframes hrest hroom
    have ha0 : 0 ≤ inF.availableSamples := hwfi.2.2.2.2.2.2.1
    have hfuel : frames.length ≤ inF.availableSamples.toNat := by
      have hl : inF.availableSamples.toNat =
          frames.flatten.length + rest.length := by
        rw [← contents_length, hcont]
        simp
      have hfl : ∀ (l : List (List ℚ)), (∀ f ∈ l, f.length = modelFrameSize.toNat) →
          l.flatten.length = l.length * modelFrameSize.toNat := by
        intro l
        induction l with
        | nil => intro _; simp
        | cons g gs ihg =>
          intro hlmem
          rw [List.flatten_cons, List.length_append,
            ihg (fun f hf => hlmem f (by simp [hf])), hlmem g (by simp)]
          simp only [List.length_cons]
          ring
      have hfl2 := hfl frames hframes
      simp only [modelFrameSize_toNat] at hfl2
      omega
    have hspec := drainLoop_spec rm hrm frames inF.availableSamples.toNat inF outF
      rest fIn fOut hwfi hwfo hcont hframes hrest hroom hfuel
    exact ⟨hspec.2, hspec.1⟩
  · intro env d buffer mix s hs
    unfold processBlock
    by_cases he : d.enabled = false
    · simp [he, hs]
    · by_cases hm : mix ≤ 0
      · simp [he, hm, hs]
      · have hload : loadDefaultModelIfNeeded env d = (true, d) := by
          unfold loadDefaultModelIfNeeded
          simp [hs]
        simp [he, hm, hload, hs]

/-- Witness for C3: a concrete well-formed fifo pair with no full frame
(the loop exits immediately, nothing is pushed) and a concrete ready
denoiser whose session survives a processBlock call. -/
theorem c3_failed_inference_bypasses_frames_witness :
    ((drainFrames (fun _ => none) (initRingBuffer.resize 1) (initRingBuffer.resize 1)
        [] []).2.1.contents =
      (initRingBuffer.resize 1).contents ++ (([] : List (List ℚ)).map fun f =>
        match (fun _ => none : List ℚ → Option (List ℚ)) f with
        | some o => o
        | none => f).flatten ∧
     (drainFrames (fun _ => none) (initRingBuffer.resize 1) (initRingBuffer.resize 1)
        [] []).1.contents = []) ∧
    (processBlock envAll c5state [[1]] 1).2.session = some () :=
  ⟨c3_failed_inference_bypasses_frames.1 (fun _ => none)
      (initRingBuffer.resize 1) (initRingBuffer.resize 1) [] [] [] []
      (fun _ o h => nomatch h) (by decide) (by decide) (by decide)
      (fun f hf => nomatch hf) (by decide) (by decide),
   c3_failed_inference_bypasses_frames.2 envAll c5state [[1]] 1 () rfl⟩
